import Mathlib

/-!
Verification of the dynamic level-of-detail (LOD) controller of the Voyager
3D viewer: the per-frame importance scorer, quality classifier with
hysteresis, texture-budget allocator and apply step found in
`CVOrbitNavigation.tick`, together with the rank-based duplicate
implementation in `CVDerivativesController.tock`.

Rational numbers stand in for JavaScript floating point; all constants of
the source (thresholds, hysteresis margin, per-tier pixel costs, the
texture budget and reservations) are carried over exactly.
-/

/-- Quality tiers of derivative assets, ordered from lowest to highest
detail.  The TypeScript enum `EDerivativeQuality` is numeric with
`Thumb = 0 < Low = 1 < Medium = 2 < High = 3`; the source compares and
decrements tiers through this numeric order. -/
inductive EDerivativeQuality : Type where
  | Thumb : EDerivativeQuality
  | Low : EDerivativeQuality
  | Medium : EDerivativeQuality
  | High : EDerivativeQuality
deriving DecidableEq, Repr

namespace EDerivativeQuality

/-- Numeric value of the TypeScript enum member. -/
def toNat : EDerivativeQuality → Nat
  | .Thumb => 0
  | .Low => 1
  | .Medium => 2
  | .High => 3

instance : LE EDerivativeQuality := ⟨fun a b => a.toNat ≤ b.toNat⟩

instance : LT EDerivativeQuality := ⟨fun a b => a.toNat < b.toNat⟩

instance (a b : EDerivativeQuality) : Decidable (a ≤ b) :=
  inferInstanceAs (Decidable (a.toNat ≤ b.toNat))

instance (a b : EDerivativeQuality) : Decidable (a < b) :=
  inferInstanceAs (Decidable (a.toNat < b.toNat))

/-- One step down in quality (the `m.quality--` of the budget loop; the
loop only decrements tiers strictly above `Thumb`). -/
def pred : EDerivativeQuality → EDerivativeQuality
  | .Thumb => .Thumb
  | .Low => .Thumb
  | .Medium => .Low
  | .High => .Medium

end EDerivativeQuality

/-- Pixel cost of the texture at each quality tier (`sizeMap` in
CVOrbitNavigation). -/
def sizeMap : EDerivativeQuality → ℤ
  | .Thumb => 512 * 512
  | .Low => 1024 * 1024
  | .Medium => 2048 * 2048
  | .High => 4096 * 4096

/-- An axis-aligned bounding box in normalized device coordinates, the
union of the eight projected corners of a model's world-space box
(`box` in `CVOrbitNavigation.tick`, `_ndcBox` in
`CVDerivativesController.tock`). -/
structure NDCBox : Type where
  xmin : ℚ
  xmax : ℚ
  ymin : ℚ
  ymax : ℚ
  zmin : ℚ
  zmax : ℚ
deriving DecidableEq, Repr

/-- Fraction of screen area covered: `box.getSize(point)` followed by
`(point.x * point.y) / 4`. -/
def relSize (b : NDCBox) : ℚ :=
  (b.xmax - b.xmin) * (b.ymax - b.ymin) / 4

/-- `clampSize` of CVDerivativesController: `Math.min(size, 1)`. -/
def clampSize (size : ℚ) : ℚ :=
  min size 1

/-- How far from center the centermost part of the object is:
`dx = Math.max(-b.max.x, b.min.x, 0)`, `dy` likewise for y, and the
weight `1 / (1 + dx + dy)`.  Both source copies compute this same
value. -/
def maxCenterWeight (b : NDCBox) : ℚ :=
  (1 : ℚ) / (1 + max (max (-b.xmax) b.xmin) 0 + max (max (-b.ymax) b.ymin) 0)

/-- Depth visibility modifier of both source copies:
`if (max < -1 || 1 < min) return 0`,
`if (-1 < min && max < 1) return 1`, else
`1 - 2 / (Math.max(1, max - 1) - Math.min(-1, min + 1))`. -/
def depthWeight (zmin zmax : ℚ) : ℚ :=
  if zmax < -1 ∨ 1 < zmin then 0
  else if -1 < zmin ∧ zmax < 1 then 1
  else 1 - 2 / (max 1 (zmax - 1) - min (-1) (zmin + 1))

/-- Importance weight of `CVOrbitNavigation.tick`:
`relSize * maxCenterWeight(box) * depthWeight(box.min.z, box.max.z)`
(note: `relSize` is not clamped in this copy). -/
def weightTick (b : NDCBox) : ℚ :=
  relSize b * maxCenterWeight b * depthWeight b.zmin b.zmax

/-- Importance weight of `CVDerivativesController.tock`:
`clampSize(relSize) * maxCenterWeight(_ndcBox) * depthWeight(...)`. -/
def weightTock (b : NDCBox) : ℚ :=
  clampSize (relSize b) * maxCenterWeight b * depthWeight b.zmin b.zmax

/-- Hysteresis margin, "in absolute % of screen area unit". -/
def hyst : ℚ := 2 / 100

/-- The ordered `(sizeThreshold, tier)` steps of the classifier. -/
def steps : List (ℚ × EDerivativeQuality) :=
  [(3 / 100, .Thumb), (1 / 10, .Low), (3 / 10, .Medium)]

/-- The quality classifier of `CVOrbitNavigation.tick`:
`steps.find(([size, q]) => { if (current <= q) size += hyst;
return relSize < size; })?.[1] ?? EDerivativeQuality.High`. -/
def getQuality (current : EDerivativeQuality) (relSize : ℚ) : EDerivativeQuality :=
  match steps.find? (fun s => decide (relSize < s.1 + (if current ≤ s.2 then hyst else 0))) with
  | some s => s.2
  | none => .High

/-- Total addressable texture space, in pixels: `16384 * 16384`. -/
def texBudget : ℤ := 16384 * 16384

/-- One model of the per-frame pass, as collected by the `map` in
`CVOrbitNavigation.tick`: its importance weight, its current quality
(`model.ins.quality.value`) and the tier the classifier proposed
(`quality` in the source; rewritten in place by the budget loop). -/
structure PassItem : Type where
  weight : ℚ
  current : EDerivativeQuality
  proposed : EDerivativeQuality
deriving DecidableEq, Repr

/-- The inner `while` of the budget loop, with explicit fuel:
`while ((16384*16384 - reserved) < texSize + sizeMap[m.quality] &&
EDerivativeQuality.Thumb < m.quality) m.quality--`.  The loop body runs
at most three times (the tier strictly decreases and stops at `Thumb`),
so fuel `3` reproduces it exactly. -/
def downgradeAux : ℕ → ℤ → ℤ → EDerivativeQuality → EDerivativeQuality
  | 0, _, _, q => q
  | n + 1, budget, texSize, q =>
    if budget < texSize + sizeMap q ∧ EDerivativeQuality.Thumb < q then
      downgradeAux n budget texSize q.pred
    else q

/-- Downgrade a tier until its cost fits in `budget` on top of `texSize`,
or the tier reaches `Thumb`. -/
def downgrade (budget texSize : ℤ) (q : EDerivativeQuality) : EDerivativeQuality :=
  downgradeAux 3 budget texSize q

/-- The budget-allocation `models.forEach`: for each model first release
its own thumbnail reservation (`reserved -= 512*512`), then downgrade its
proposed tier until it fits, then account its cost
(`texSize += sizeMap[m.quality]`).  Returns the updated models, the final
`texSize` and the final `reserved`. -/
def allocFold : List PassItem → ℤ → ℤ → List PassItem × ℤ × ℤ
  | [], texSize, reserved => ([], texSize, reserved)
  | m :: rest, texSize, reserved =>
    let reserved2 := reserved - 512 * 512
    let q2 := downgrade (texBudget - reserved2) texSize m.proposed
    let r := allocFold rest (texSize + sizeMap q2) reserved2
    (⟨m.weight, m.current, q2⟩ :: r.1, r.2)

/-- Initial reservation: "2 maps of 512px per thumbnails models, then a
few 1024px maps for shadow maps":
`2 * models.length * 512 * 512 + 1024 * 1024 * 4`. -/
def reserveInit (n : ℕ) : ℤ := 2 * (n : ℤ) * (512 * 512) + 1024 * 1024 * 4

/-- The whole budget-allocation pass over an (already weight-sorted)
model list. -/
def allocate (ms : List PassItem) : List PassItem × ℤ × ℤ :=
  allocFold ms 0 (reserveInit ms.length)

/-- Total pixel cost of the assigned tiers of a model list. -/
def sumCosts (ms : List PassItem) : ℤ :=
  (ms.map (fun m => sizeMap m.proposed)).sum

/-- A model as seen between frames: importance weight (fixed while the
camera and transforms are unchanged) and currently bound quality tier. -/
structure LODModel : Type where
  weight : ℚ
  quality : EDerivativeQuality
deriving DecidableEq, Repr

/-- The classification `map` of the tick pass: each model is paired with
its current tier and the tier `getQuality(current, weight)` proposes. -/
def classifyList (ms : List LODModel) : List PassItem :=
  ms.map (fun m => ⟨m.weight, m.quality, getQuality m.quality m.weight⟩)

/-- Ascending-by-weight comparison used by
`models.sort((a, b) => a.weight - b.weight)`. -/
def wRel (a b : PassItem) : Prop := a.weight ≤ b.weight

instance : DecidableRel wRel := fun a b => inferInstanceAs (Decidable (a.weight ≤ b.weight))

instance : IsTotal PassItem wRel := ⟨fun a b => le_total a.weight b.weight⟩

instance : IsTrans PassItem wRel := ⟨fun _ _ _ => le_trans⟩

/-- The final `for (let {model, quality, weight} of models)` loop body of
the tick pass, for a single model: skip when the allocated tier equals
the current one, skip upgrades of invisible models
(`current < quality && !weight`), otherwise ask the derivative
collaborator (`select`) for the tier and adopt its answer when it
differs from the current tier. -/
def applyStep (select : EDerivativeQuality → Option EDerivativeQuality)
    (current finalq : EDerivativeQuality) (weight : ℚ) : EDerivativeQuality :=
  if finalq = current then current
  else if current < finalq ∧ weight = 0 then current
  else
    match select finalq with
    | some bq => if bq ≠ current then bq else current
    | none => current

/-- The apply loop over the whole pass output, with an exact-match
collaborator (`select q = some q`). -/
def applyList (ms : List PassItem) : List LODModel :=
  ms.map (fun m => ⟨m.weight, applyStep (fun q => some q) m.current m.proposed m.weight⟩)

/-- One complete classify-sort-allocate-apply pass of
`CVOrbitNavigation.tick` over the scene's models, with the camera (hence
every weight) unchanged and an exact-match derivative collaborator. -/
def lodPass (ms : List LODModel) : List LODModel :=
  applyList (allocate (List.insertionSort wRel (classifyList ms))).1

/-- Rank-to-tier map of `CVDerivativesController.tock`: the loop
initializes `quality = Thumb` and overrides it with `High` for
`i < 2`, `Medium` for `i < 5`, `Low` for `i < 10`. -/
def tockQuality (i : ℕ) : EDerivativeQuality :=
  if i < 2 then .High else if i < 5 then .Medium else if i < 10 then .Low else .Thumb

/-- Descending sort of `CVDerivativesController.tock`:
`.sort((a, b) => b.weight - a.weight)`. -/
def sortDesc (ms : List LODModel) : List LODModel :=
  List.insertionSort (fun a b => b.weight ≤ a.weight) ms

/-- The assignment loop of `CVDerivativesController.tock`: models in
descending weight order receive the rank-based tier, subject to the same
skip-if-equal and collaborator steps as the tick pass (there is no
weight gating and no budget in this copy). -/
def tockAssign (select : EDerivativeQuality → Option EDerivativeQuality)
    (ms : List LODModel) : List LODModel :=
  (sortDesc ms).enum.map (fun p =>
    let m := p.2
    let quality := tockQuality p.1
    if quality = m.quality then m
    else
      match select quality with
      | some bq => if bq ≠ m.quality then ⟨m.weight, bq⟩ else m
      | none => m)

/-- The classifier as claim C4 words it: the hysteresis margin is added
to a step's threshold exactly when the step's tier is at or below the
model's current tier (`q ≤ current`).  Stated from the claim, for
comparison against `getQuality`, whose source condition is
`current <= q`. -/
def getQualityClaimC4 (current : EDerivativeQuality) (relSize : ℚ) : EDerivativeQuality :=
  match steps.find? (fun s => decide (relSize < s.1 + (if s.2 ≤ current then hyst else 0))) with
  | some s => s.2
  | none => .High

/-- The weight sequence of claim C5: 0.095 on even frames, 0.105 on odd
frames. -/
def altWeights (n : ℕ) : ℚ := if n % 2 = 0 then 19 / 200 else 21 / 200

/-- Tier trajectory of claim C5: start at `Medium`, feed each frame's
classifier output back in as the next frame's current tier. -/
def trajC5 : ℕ → EDerivativeQuality
  | 0 => .Medium
  | n + 1 => getQuality (trajC5 n) (altWeights n)

/-- A box whose projected corners all lie at or beyond `x = 2`, entirely
outside the frustum in x (claim C2's "Model B" shape). -/
def c2box : NDCBox := ⟨2, 3, 0, 1, 0, 1 / 2⟩

/-- First box of the claim-C9 check: width 1, height 1/5, center at
`(1/2, 1/2)` (straight-line distance to the origin squared: 1/2). -/
def c9box1 : NDCBox := ⟨0, 1, 2 / 5, 3 / 5, 0, 0⟩

/-- Second box of the claim-C9 check: width 1, height 1/5, center at
`(0, 7/10)` (straight-line distance to the origin squared: 49/100,
strictly closer than `c9box1`). -/
def c9box2 : NDCBox := ⟨-(1 / 2), 1 / 2, 3 / 5, 4 / 5, 0, 0⟩

/-- The shape of a second-frame classification input built from a
first-frame allocation output whose tier was applied: the applied tier
becomes the current one and the classifier is consulted again. -/
def reclass (m : PassItem) : PassItem :=
  ⟨m.weight, m.proposed, getQuality m.proposed m.weight⟩

/-- The classifier unfolded: the threshold of a step is raised by the
hysteresis margin exactly when `current ≤ q` holds for that step's tier
`q`, and the first raised-or-plain threshold strictly above the weight
decides the tier, defaulting to `High`. -/
theorem getQuality_char (c : EDerivativeQuality) (w : ℚ) :
    getQuality c w =
      if w < 3 / 100 + (if c ≤ EDerivativeQuality.Thumb then hyst else 0) then .Thumb
      else if w < 1 / 10 + (if c ≤ EDerivativeQuality.Low then hyst else 0) then .Low
      else if w < 3 / 10 + (if c ≤ EDerivativeQuality.Medium then hyst else 0) then .Medium
      else .High := by
  simp only [getQuality, steps, List.find?]
  by_cases h1 : w < 3 / 100 + (if c ≤ EDerivativeQuality.Thumb then hyst else 0)
  · simp only [decide_eq_true h1, if_pos h1]
  · simp only [decide_eq_false h1, if_neg h1]
    by_cases h2 : w < 1 / 10 + (if c ≤ EDerivativeQuality.Low then hyst else 0)
    · simp only [decide_eq_true h2, if_pos h2]
    · simp only [decide_eq_false h2, if_neg h2]
      by_cases h3 : w < 3 / 10 + (if c ≤ EDerivativeQuality.Medium then hyst else 0)
      · simp only [decide_eq_true h3, if_pos h3]
      · simp only [decide_eq_false h3, if_neg h3]

theorem EDerivativeQuality.le_iff (a b : EDerivativeQuality) : a ≤ b ↔ a.toNat ≤ b.toNat :=
  Iff.rfl

theorem EDerivativeQuality.lt_iff (a b : EDerivativeQuality) : a < b ↔ a.toNat < b.toNat :=
  Iff.rfl

theorem EDerivativeQuality.thumb_le (q : EDerivativeQuality) : EDerivativeQuality.Thumb ≤ q := by
  cases q <;> decide

theorem sizeMap_thumb_le (q : EDerivativeQuality) : sizeMap .Thumb ≤ sizeMap q := by
  cases q <;> decide

theorem sizeMap_T : sizeMap .Thumb = 512 * 512 := rfl

theorem sizeMap_L : sizeMap .Low = 1024 * 1024 := rfl

theorem sizeMap_M : sizeMap .Medium = 2048 * 2048 := rfl

theorem sizeMap_H : sizeMap .High = 4096 * 4096 := rfl

theorem thumb_lt_thumb : (EDerivativeQuality.Thumb < EDerivativeQuality.Thumb) = False :=
  eq_false (by decide)

theorem thumb_lt_low : (EDerivativeQuality.Thumb < EDerivativeQuality.Low) = True :=
  eq_true (by decide)

theorem thumb_lt_medium : (EDerivativeQuality.Thumb < EDerivativeQuality.Medium) = True :=
  eq_true (by decide)

theorem thumb_lt_high : (EDerivativeQuality.Thumb < EDerivativeQuality.High) = True :=
  eq_true (by decide)

theorem downgrade_le (b t : ℤ) (q : EDerivativeQuality) : downgrade b t q ≤ q := by
  cases q <;>
    simp only [downgrade, downgradeAux, EDerivativeQuality.pred] <;>
    split_ifs <;> decide

theorem downgrade_fits (b t : ℤ) (q : EDerivativeQuality)
    (h : t + sizeMap .Thumb ≤ b) : t + sizeMap (downgrade b t q) ≤ b := by
  rw [sizeMap_T] at h
  cases q <;>
    simp only [downgrade, downgradeAux, EDerivativeQuality.pred, sizeMap_T, sizeMap_L,
      sizeMap_M, sizeMap_H, thumb_lt_thumb, thumb_lt_low, thumb_lt_medium, thumb_lt_high,
      and_true, and_false, if_false] <;>
    first
    | omega
    | (split_ifs <;> (try simp only [sizeMap_T, sizeMap_L, sizeMap_M, sizeMap_H]) <;> omega)

theorem downgrade_thumb (b t : ℤ) (q : EDerivativeQuality)
    (h : b < t + sizeMap .Thumb) : downgrade b t q = .Thumb := by
  rw [sizeMap_T] at h
  cases q <;>
    simp only [downgrade, downgradeAux, EDerivativeQuality.pred, sizeMap_T, sizeMap_L,
      sizeMap_M, sizeMap_H, thumb_lt_thumb, thumb_lt_low, thumb_lt_medium, thumb_lt_high,
      and_true, and_false, if_false] <;>
    split_ifs <;> first | rfl | omega

theorem allocFold_forall₂ (ms : List PassItem) : ∀ (t r : ℤ),
    List.Forall₂ (fun a b => EDerivativeQuality.Thumb ≤ a.proposed ∧ a.proposed ≤ b.proposed ∧
      a.weight = b.weight ∧ a.current = b.current) (allocFold ms t r).1 ms := by
  induction ms with
  | nil => intro t r; simp [allocFold]
  | cons m rest ih =>
    intro t r
    exact List.Forall₂.cons
      ⟨EDerivativeQuality.thumb_le _, downgrade_le _ _ _, rfl, rfl⟩ (ih _ _)

theorem allocFold_sum (ms : List PassItem) : ∀ (t r : ℤ),
    (allocFold ms t r).2.1 = t + sumCosts (allocFold ms t r).1 := by
  induction ms with
  | nil => intro t r; simp [allocFold, sumCosts]
  | cons m rest ih =>
    intro t r
    simp only [allocFold, sumCosts, List.map_cons, List.sum_cons]
    rw [ih]
    simp only [sumCosts]
    ring

theorem allocFold_reserved (ms : List PassItem) : ∀ (t r : ℤ),
    (allocFold ms t r).2.2 = r - (ms.length : ℤ) * (512 * 512) := by
  induction ms with
  | nil => intro t r; simp [allocFold]
  | cons m rest ih =>
    intro t r
    simp only [allocFold, List.length_cons]
    rw [ih]
    push_cast
    ring

theorem allocFold_bound (ms : List PassItem) : ∀ (t r : ℤ), t ≤ texBudget - r →
    (allocFold ms t r).2.1 ≤ texBudget - (allocFold ms t r).2.2 := by
  induction ms with
  | nil => intro t r h; simpa [allocFold] using h
  | cons m rest ih =>
    intro t r h
    simp only [allocFold]
    apply ih
    have hfit : t + sizeMap (downgrade (texBudget - (r - 512 * 512)) t m.proposed) ≤
        texBudget - (r - 512 * 512) := by
      apply downgrade_fits
      rw [sizeMap_T]
      omega
    omega

theorem allocFold_thumb_all (ms : List PassItem) : ∀ (t r : ℤ), texBudget - r < t →
    ∀ m2 ∈ (allocFold ms t r).1, m2.proposed = .Thumb := by
  induction ms with
  | nil => intro t r _ m2 hm; simp [allocFold] at hm
  | cons m rest ih =>
    intro t r h m2 hm
    have hq2 : downgrade (texBudget - (r - 512 * 512)) t m.proposed = .Thumb := by
      apply downgrade_thumb
      rw [sizeMap_T]
      omega
    simp only [allocFold, List.mem_cons] at hm
    rcases hm with hm | hm
    · rw [hm, hq2]
    · refine ih _ _ ?_ _ hm
      rw [hq2, sizeMap_T]
      omega

/-- C1: when the budget allocator processes a weight-sorted model list,
then whenever the Thumb-cost of every model plus the remaining
reservation fits in the 16384x16384 budget, the total pixel cost of the
assigned tiers after the pass is at most the budget minus the remaining
reservation; and when that feasibility hypothesis fails, every model
(all being over budget) ends at the Thumb tier, the loop terminating
normally. -/
theorem budget_satisfaction (ms : List PassItem) (hsorted : List.Pairwise wRel ms) :
    ((ms.length : ℤ) * sizeMap .Thumb + (allocate ms).2.2 ≤ texBudget →
      sumCosts (allocate ms).1 ≤ texBudget - (allocate ms).2.2) ∧
    (texBudget < (ms.length : ℤ) * sizeMap .Thumb + (allocate ms).2.2 →
      ∀ m ∈ (allocate ms).1, m.proposed = .Thumb) := by
  have hres : (allocate ms).2.2 =
      (ms.length : ℤ) * (512 * 512) + 1024 * 1024 * 4 := by
    simp only [allocate, allocFold_reserved, reserveInit]
    ring
  constructor
  · intro hfeas
    have h0 : (0 : ℤ) ≤ texBudget - reserveInit ms.length := by
      rw [hres, sizeMap_T] at hfeas
      simp only [reserveInit]
      omega
    have := allocFold_bound ms 0 (reserveInit ms.length) h0
    have hsum := allocFold_sum ms 0 (reserveInit ms.length)
    simp only [allocate]
    omega
  · intro hinfeas
    have h0 : texBudget - reserveInit ms.length < 0 := by
      rw [hres, sizeMap_T] at hinfeas
      simp only [reserveInit]
      omega
    exact allocFold_thumb_all ms 0 (reserveInit ms.length) h0

/-- C1 witness: a feasible two-model list, sorted by ascending weight and
proposing the highest tier, ends within budget. -/
theorem budget_satisfaction_witness :
    sumCosts (allocate [⟨1 / 10, .High, .High⟩, ⟨2 / 10, .High, .High⟩]).1 ≤
      texBudget - (allocate [⟨1 / 10, .High, .High⟩, ⟨2 / 10, .High, .High⟩]).2.2 :=
  (budget_satisfaction [⟨1 / 10, .High, .High⟩, ⟨2 / 10, .High, .High⟩]
    (by simp [List.pairwise_cons, wRel]; norm_num)).1 (by decide)

/-- C6: budget enforcement only ever downgrades: every model's final tier
is at most its classifier-proposed tier and at least the lowest tier
`Thumb`, for every input list. -/
theorem alloc_downgrade_only (ms : List PassItem) :
    List.Forall₂ (fun a b => EDerivativeQuality.Thumb ≤ a.proposed ∧ a.proposed ≤ b.proposed)
      (allocate ms).1 ms :=
  (allocFold_forall₂ ms 0 (reserveInit ms.length)).imp (fun a b h => ⟨h.1, h.2.1⟩)

/-- C7: the apply step never upgrades an invisible model: a final tier
above the current one is dropped when the weight is zero, a final tier
below the current one is applied independently of the weight, and a
model at Thumb with weight zero stays at Thumb whatever the classifier
proposed and whatever the collaborator answers. -/
theorem apply_gating (select : EDerivativeQuality → Option EDerivativeQuality)
    (current finalq : EDerivativeQuality) (w : ℚ) :
    (current < finalq → w = 0 → applyStep select current finalq w = current) ∧
    (finalq < current →
      ∀ w2 : ℚ, applyStep select current finalq w = applyStep select current finalq w2) ∧
    (∀ q, applyStep select .Thumb q 0 = .Thumb) := by
  refine ⟨?_, ?_, ?_⟩
  · intro hlt hw
    simp only [applyStep]
    split_ifs with h1 h2
    · rfl
    · rfl
    · exact absurd ⟨hlt, hw⟩ h2
  · intro hlt w2
    have hne : ¬ finalq = current := by
      intro h
      rw [h] at hlt
      exact Nat.lt_irrefl _ ((EDerivativeQuality.lt_iff _ _).mp hlt)
    have hnlt : ¬ current < finalq := fun hc =>
      Nat.lt_asymm ((EDerivativeQuality.lt_iff _ _).mp hlt)
        ((EDerivativeQuality.lt_iff _ _).mp hc)
    simp only [applyStep, if_neg hne]
    rw [if_neg (fun h => hnlt h.1), if_neg (fun h => hnlt h.1)]
  · intro q
    cases q <;>
      simp [applyStep, thumb_lt_thumb, thumb_lt_low, thumb_lt_medium, thumb_lt_high]

/-- C7 witness: with an exact-match collaborator, a model at Thumb with
weight zero is not upgraded to the proposed High tier. -/
theorem apply_gating_witness :
    applyStep (fun q => some q) .Thumb .High 0 = .Thumb :=
  (apply_gating (fun q => some q) .Thumb .High 0).1 (by decide) rfl

/-- The claim-C4 classifier unfolded the same way, with the margin on
steps at or below the current tier. -/
theorem getQualityClaimC4_char (c : EDerivativeQuality) (w : ℚ) :
    getQualityClaimC4 c w =
      if w < 3 / 100 + (if EDerivativeQuality.Thumb ≤ c then hyst else 0) then .Thumb
      else if w < 1 / 10 + (if EDerivativeQuality.Low ≤ c then hyst else 0) then .Low
      else if w < 3 / 10 + (if EDerivativeQuality.Medium ≤ c then hyst else 0) then .Medium
      else .High := by
  simp only [getQualityClaimC4, steps, List.find?]
  by_cases h1 : w < 3 / 100 + (if EDerivativeQuality.Thumb ≤ c then hyst else 0)
  · simp only [decide_eq_true h1, if_pos h1]
  · simp only [decide_eq_false h1, if_neg h1]
    by_cases h2 : w < 1 / 10 + (if EDerivativeQuality.Low ≤ c then hyst else 0)
    · simp only [decide_eq_true h2, if_pos h2]
    · simp only [decide_eq_false h2, if_neg h2]
      by_cases h3 : w < 3 / 10 + (if EDerivativeQuality.Medium ≤ c then hyst else 0)
      · simp only [decide_eq_true h3, if_pos h3]
      · simp only [decide_eq_false h3, if_neg h3]

/-- C3 counterexample: the claimed boundary values of `depthWeight` fail
on the code: `depthWeight(-1, 1)` is `0`, not `1` (the comparisons are
strict, so the closed box falls through to the partial formula), and
`depthWeight(1.5, 2.5)` is `0`, not strictly between `0` and `1` (the
box lies entirely beyond the far plane). -/
theorem depthWeight_boundary_counterexample :
    ¬ (depthWeight (-1) 1 = 1 ∧ depthWeight 2 3 = 0 ∧
       0 < depthWeight (3 / 2) (5 / 2) ∧ depthWeight (3 / 2) (5 / 2) < 1) := by
  intro h
  have h1 : depthWeight (-1) 1 = 0 := by norm_num [depthWeight]
  rw [h1] at h
  exact absurd h.1 (by norm_num)

/-- C3 (amended): the actual boundary values of `depthWeight`:
`depthWeight(-1, 1) = 0`, `depthWeight(2, 3) = 0`,
`depthWeight(1.5, 2.5) = 0`; a box genuinely straddling the far plane,
such as `(0.5, 3)`, yields a value strictly between `0` and `1`. -/
theorem depthWeight_boundary :
    depthWeight (-1) 1 = 0 ∧ depthWeight 2 3 = 0 ∧ depthWeight (3 / 2) (5 / 2) = 0 ∧
    0 < depthWeight (1 / 2) 3 ∧ depthWeight (1 / 2) 3 < 1 := by
  refine ⟨by norm_num [depthWeight], by norm_num [depthWeight], by norm_num [depthWeight],
    ?_, ?_⟩ <;>
    rw [show depthWeight (1 / 2) 3 = 1 / 3 from by norm_num [depthWeight]] <;> norm_num

/-- C4 counterexample: the code's hysteresis condition is `current <= q`,
not the claimed `q <= current`: at current tier High and weight 0.31 the
code keeps High while the claimed rule would return Medium. -/
theorem hysteresis_direction_counterexample :
    getQuality .High (31 / 100) = .High ∧ getQualityClaimC4 .High (31 / 100) = .Medium ∧
    EDerivativeQuality.High ≠ .Medium := by
  refine ⟨?_, ?_, by decide⟩
  · rw [getQuality_char]; norm_num +decide [hyst]
  · rw [getQualityClaimC4_char]; norm_num +decide [hyst]

/-- C4 (amended): `getQuality` adds the hysteresis margin 0.02 to a
step's threshold before the `weight < threshold` comparison exactly when
the step's tier is at or ABOVE the model's current tier
(`current ≤ q`), so upgrades near a boundary are dampened while
downgrades are compared against the undamped threshold. -/
theorem hysteresis_direction (c : EDerivativeQuality) (w : ℚ) :
    getQuality c w =
      if w < 3 / 100 + (if c ≤ EDerivativeQuality.Thumb then hyst else 0) then .Thumb
      else if w < 1 / 10 + (if c ≤ EDerivativeQuality.Low then hyst else 0) then .Low
      else if w < 3 / 10 + (if c ≤ EDerivativeQuality.Medium then hyst else 0) then .Medium
      else .High :=
  getQuality_char c w

/-- C5 counterexample: starting at Medium, the very first frame with
weight 0.095 moves the tier to Low — the Low step's threshold is not
dampened for a model currently at Medium, so the claimed "stays at
Medium throughout" fails. -/
theorem hysteresis_stability_counterexample :
    trajC5 1 = .Low ∧ EDerivativeQuality.Low ≠ .Medium := by
  refine ⟨?_, by decide⟩
  show getQuality (trajC5 0) (altWeights 0) = .Low
  have h0 : altWeights 0 = 19 / 200 := by norm_num [altWeights]
  rw [show trajC5 0 = .Medium from rfl, h0, getQuality_char]
  norm_num +decide [hyst]

/-- C5 (amended): under the alternating 0.095/0.105 weights the
classifier moves the tier from Medium to Low on the first application
and the tier then stays at Low on every subsequent frame — stable, but
at Low rather than the claimed Medium. -/
theorem hysteresis_settles_low : ∀ n : ℕ, trajC5 (n + 1) = .Low := by
  intro n
  induction n with
  | zero =>
    show getQuality (trajC5 0) (altWeights 0) = .Low
    have h0 : altWeights 0 = 19 / 200 := by norm_num [altWeights]
    rw [show trajC5 0 = .Medium from rfl, h0, getQuality_char]
    norm_num +decide [hyst]
  | succ k ih =>
    show getQuality (trajC5 (k + 1)) (altWeights (k + 1)) = .Low
    rw [ih]
    rcases Nat.even_or_odd (k + 1) with h | h
    · have hw : altWeights (k + 1) = 19 / 200 := by
        simp [altWeights, Nat.even_iff.mp h]
      rw [hw, getQuality_char]
      norm_num +decide [hyst]
    · have hw : altWeights (k + 1) = 21 / 200 := by
        simp [altWeights, Nat.odd_iff.mp h]
      rw [hw, getQuality_char]
      norm_num +decide [hyst]

theorem depthWeight_mem (zmin zmax : ℚ) :
    0 ≤ depthWeight zmin zmax ∧ depthWeight zmin zmax ≤ 1 := by
  unfold depthWeight
  split_ifs with h1 h2
  · norm_num
  · norm_num
  · have ha : (1 : ℚ) ≤ max 1 (zmax - 1) := le_max_left _ _
    have hb : min (-1 : ℚ) (zmin + 1) ≤ -1 := min_le_left _ _
    have hpos : (0 : ℚ) < max 1 (zmax - 1) - min (-1) (zmin + 1) := by linarith
    have hdiv1 : 2 / (max 1 (zmax - 1) - min (-1) (zmin + 1)) ≤ 1 :=
      (div_le_one hpos).mpr (by linarith)
    have hdiv0 : 0 < 2 / (max 1 (zmax - 1) - min (-1) (zmin + 1)) :=
      div_pos (by norm_num) hpos
    constructor <;> linarith

theorem maxCenterWeight_mem (b : NDCBox) :
    0 < maxCenterWeight b ∧ maxCenterWeight b ≤ 1 := by
  unfold maxCenterWeight
  have hx : (0 : ℚ) ≤ max (max (-b.xmax) b.xmin) 0 := le_max_right _ _
  have hy : (0 : ℚ) ≤ max (max (-b.ymax) b.ymin) 0 := le_max_right _ _
  have hpos : (0 : ℚ) < 1 + max (max (-b.xmax) b.xmin) 0 + max (max (-b.ymax) b.ymin) 0 := by
    linarith
  exact ⟨div_pos one_pos hpos, (div_le_one hpos).mpr (by linarith)⟩

theorem clampSize_mem (s : ℚ) (h : 0 ≤ s) : 0 ≤ clampSize s ∧ clampSize s ≤ 1 :=
  ⟨le_min h (by norm_num), min_le_right _ _⟩

theorem clampSize_eq_zero (s : ℚ) (h : 0 ≤ s) : clampSize s = 0 ↔ s = 0 := by
  unfold clampSize
  constructor
  · intro h0
    rcases le_total s 1 with h1 | h1
    · rwa [min_eq_left h1] at h0
    · rw [min_eq_right h1] at h0
      exact absurd h0 (by norm_num)
  · intro h0
    rw [h0]
    exact min_eq_left (by norm_num)

/-- C2 counterexample: the box `c2box`, all of whose corners lie at or
beyond `x = 2` (entirely outside the frustum in x), receives weight
`1/12`, not `0`, in both scorer copies: the centeredness factor only
dampens offscreen boxes, it never zeroes them. -/
theorem weight_offscreen_counterexample :
    (2 : ℚ) ≤ c2box.xmin ∧ weightTick c2box = 1 / 12 ∧ weightTock c2box = 1 / 12 ∧
    (1 / 12 : ℚ) ≠ 0 := by
  refine ⟨by norm_num [c2box], ?_, ?_, by norm_num⟩
  · norm_num [weightTick, c2box, relSize, maxCenterWeight, depthWeight, max_def, min_def]
  · norm_num [weightTock, c2box, relSize, clampSize, maxCenterWeight, depthWeight,
      max_def, min_def]

/-- C2 (amended): for every NDC box with nonnegative extents, the clamped
(CVDerivativesController) weight lies in `[0, 1]`, and it is `0` exactly
when the relative screen size is `0` or the depth weight is `0`; the
centeredness factor is never `0`, so a box entirely beyond `x = 2` with
positive area and depth visibility receives a positive (dampened)
weight, not `0`. -/
theorem weight_bounds (b : NDCBox) (hx : b.xmin ≤ b.xmax) (hy : b.ymin ≤ b.ymax) :
    0 ≤ weightTock b ∧ weightTock b ≤ 1 ∧
    (weightTock b = 0 ↔ relSize b = 0 ∨ depthWeight b.zmin b.zmax = 0) := by
  have hr : 0 ≤ relSize b := by
    unfold relSize
    have h := mul_nonneg (sub_nonneg.mpr hx) (sub_nonneg.mpr hy)
    positivity
  obtain ⟨hc0, hc1⟩ := clampSize_mem (relSize b) hr
  obtain ⟨hm0, hm1⟩ := maxCenterWeight_mem b
  obtain ⟨hd0, hd1⟩ := depthWeight_mem b.zmin b.zmax
  refine ⟨?_, ?_, ?_⟩
  · exact mul_nonneg (mul_nonneg hc0 (le_of_lt hm0)) hd0
  · exact mul_le_one₀ (mul_le_one₀ hc1 (le_of_lt hm0) hm1) hd0 hd1
  · unfold weightTock
    rw [mul_eq_zero, mul_eq_zero]
    constructor
    · rintro ((hc | hm) | hd)
      · exact Or.inl ((clampSize_eq_zero (relSize b) hr).mp hc)
      · exact absurd hm (ne_of_gt hm0)
      · exact Or.inr hd
    · rintro (hrel | hd)
      · exact Or.inl (Or.inl ((clampSize_eq_zero (relSize b) hr).mpr hrel))
      · exact Or.inr hd

/-- C2 witness: the full-screen box `[-1,1]x[-1,1]` with depth inside
`(-1,1)` satisfies the amended bounds (its weight is in `[0,1]` and its
zero-weight characterization holds). -/
theorem weight_bounds_witness :
    0 ≤ weightTock (NDCBox.mk (-1) 1 (-1) 1 (-(1 / 2)) (1 / 2)) ∧
    weightTock (NDCBox.mk (-1) 1 (-1) 1 (-(1 / 2)) (1 / 2)) ≤ 1 ∧
    (weightTock (NDCBox.mk (-1) 1 (-1) 1 (-(1 / 2)) (1 / 2)) = 0 ↔
      relSize (NDCBox.mk (-1) 1 (-1) 1 (-(1 / 2)) (1 / 2)) = 0 ∨
      depthWeight (NDCBox.mk (-1) 1 (-1) 1 (-(1 / 2)) (1 / 2)).zmin
        (NDCBox.mk (-1) 1 (-1) 1 (-(1 / 2)) (1 / 2)).zmax = 0) :=
  weight_bounds (NDCBox.mk (-1) 1 (-1) 1 (-(1 / 2)) (1 / 2)) (by norm_num) (by norm_num)

theorem max_neg_aux (m M : ℚ) : max (-M) m = (|m + M| - (M - m)) / 2 := by
  rcases le_or_lt 0 (m + M) with h | h
  · rw [abs_of_nonneg h, max_eq_right (by linarith)]
    ring
  · rw [abs_of_neg h, max_eq_left (by linarith)]
    ring

/-- C9 counterexample: `c9box1` and `c9box2` have identical width and
height, the center of `c9box2` is strictly closer to the NDC origin in
straight-line distance, yet its `maxCenterWeight` is strictly smaller
(5/8 against 5/7): closeness of the center does not imply a larger
centeredness factor. -/
theorem centerWeight_counterexample :
    c9box1.xmax - c9box1.xmin = c9box2.xmax - c9box2.xmin ∧
    c9box1.ymax - c9box1.ymin = c9box2.ymax - c9box2.ymin ∧
    ((c9box2.xmin + c9box2.xmax) / 2) ^ 2 + ((c9box2.ymin + c9box2.ymax) / 2) ^ 2 <
      ((c9box1.xmin + c9box1.xmax) / 2) ^ 2 + ((c9box1.ymin + c9box1.ymax) / 2) ^ 2 ∧
    maxCenterWeight c9box2 < maxCenterWeight c9box1 := by
  refine ⟨by norm_num [c9box1, c9box2], by norm_num [c9box1, c9box2],
    by norm_num [c9box1, c9box2], ?_⟩
  norm_num [c9box1, c9box2, maxCenterWeight, max_def]

/-- C9 (amended): for two NDC boxes of identical width and height, if the
first box's center is at least as close to the origin as the second's on
EACH axis separately, then its `maxCenterWeight` is at least the
second's; per-axis closeness, not straight-line closeness, is what the
factor rewards. -/
theorem centerWeight_componentwise_mono (b1 b2 : NDCBox)
    (hw : b1.xmax - b1.xmin = b2.xmax - b2.xmin)
    (hh : b1.ymax - b1.ymin = b2.ymax - b2.ymin)
    (hcx : |b1.xmin + b1.xmax| ≤ |b2.xmin + b2.xmax|)
    (hcy : |b1.ymin + b1.ymax| ≤ |b2.ymin + b2.ymax|) :
    maxCenterWeight b2 ≤ maxCenterWeight b1 := by
  unfold maxCenterWeight
  have hdx : max (-b1.xmax) b1.xmin ≤ max (-b2.xmax) b2.xmin := by
    rw [max_neg_aux, max_neg_aux]
    linarith
  have hdy : max (-b1.ymax) b1.ymin ≤ max (-b2.ymax) b2.ymin := by
    rw [max_neg_aux, max_neg_aux]
    linarith
  have h1 : max (max (-b1.xmax) b1.xmin) 0 ≤ max (max (-b2.xmax) b2.xmin) 0 :=
    max_le_max hdx le_rfl
  have h2 : max (max (-b1.ymax) b1.ymin) 0 ≤ max (max (-b2.ymax) b2.ymin) 0 :=
    max_le_max hdy le_rfl
  have hx1 : (0 : ℚ) ≤ max (max (-b1.xmax) b1.xmin) 0 := le_max_right _ _
  have hy1 : (0 : ℚ) ≤ max (max (-b1.ymax) b1.ymin) 0 := le_max_right _ _
  exact one_div_le_one_div_of_le (by linarith) (by linarith)

/-- C9 witness: a centered box against the same box shifted along x. -/
theorem centerWeight_componentwise_mono_witness :
    maxCenterWeight (NDCBox.mk (3 / 4) (5 / 4) (-(1 / 4)) (1 / 4) 0 0) ≤
      maxCenterWeight (NDCBox.mk (-(1 / 4)) (1 / 4) (-(1 / 4)) (1 / 4) 0 0) :=
  centerWeight_componentwise_mono
    (NDCBox.mk (-(1 / 4)) (1 / 4) (-(1 / 4)) (1 / 4) 0 0)
    (NDCBox.mk (3 / 4) (5 / 4) (-(1 / 4)) (1 / 4) 0 0)
    (by norm_num) (by norm_num) (by norm_num) (by norm_num)

/-- C10: with an exact-match collaborator, the duplicate
`CVDerivativesController.tock` implementation assigns every model the
tier determined solely by its rank in descending-weight order — High for
ranks 0 and 1, Medium for ranks 2 through 4, Low for ranks 5 through 9,
Thumb afterwards — independently of weight thresholds, hysteresis or any
texture budget. -/
theorem tock_rank_assignment (ms : List LODModel) :
    tockAssign (fun q => some q) ms =
      (sortDesc ms).enum.map (fun p => ⟨p.2.weight, tockQuality p.1⟩) ∧
    (∀ i : ℕ, (i < 2 → tockQuality i = .High) ∧
      (2 ≤ i → i < 5 → tockQuality i = .Medium) ∧
      (5 ≤ i → i < 10 → tockQuality i = .Low) ∧
      (10 ≤ i → tockQuality i = .Thumb)) := by
  constructor
  · unfold tockAssign
    apply List.map_congr_left
    intro p _
    by_cases h : tockQuality p.1 = p.2.quality
    · simp only [if_pos h]
      rw [h]
    · simp only [if_neg h, ne_eq, ite_not, if_neg h]
  · intro i
    refine ⟨?_, fun h2 => ?_, fun h5 => ?_, fun h10 => ?_⟩ <;>
      intros <;>
      unfold tockQuality <;>
      split_ifs <;>
      first | rfl | omega

theorem qle_tt : (EDerivativeQuality.Thumb ≤ EDerivativeQuality.Thumb) = True := eq_true (by decide)

theorem qle_tl : (EDerivativeQuality.Thumb ≤ EDerivativeQuality.Low) = True := eq_true (by decide)

theorem qle_tm : (EDerivativeQuality.Thumb ≤ EDerivativeQuality.Medium) = True := eq_true (by decide)

theorem qle_th : (EDerivativeQuality.Thumb ≤ EDerivativeQuality.High) = True := eq_true (by decide)

theorem qle_lt : (EDerivativeQuality.Low ≤ EDerivativeQuality.Thumb) = False := eq_false (by decide)

theorem qle_ll : (EDerivativeQuality.Low ≤ EDerivativeQuality.Low) = True := eq_true (by decide)

theorem qle_lm : (EDerivativeQuality.Low ≤ EDerivativeQuality.Medium) = True := eq_true (by decide)

theorem qle_lh : (EDerivativeQuality.Low ≤ EDerivativeQuality.High) = True := eq_true (by decide)

theorem qle_mt : (EDerivativeQuality.Medium ≤ EDerivativeQuality.Thumb) = False := eq_false (by decide)

theorem qle_ml : (EDerivativeQuality.Medium ≤ EDerivativeQuality.Low) = False := eq_false (by decide)

theorem qle_mm : (EDerivativeQuality.Medium ≤ EDerivativeQuality.Medium) = True := eq_true (by decide)

theorem qle_mh : (EDerivativeQuality.Medium ≤ EDerivativeQuality.High) = True := eq_true (by decide)

theorem qle_ht : (EDerivativeQuality.High ≤ EDerivativeQuality.Thumb) = False := eq_false (by decide)

theorem qle_hl : (EDerivativeQuality.High ≤ EDerivativeQuality.Low) = False := eq_false (by decide)

theorem qle_hm : (EDerivativeQuality.High ≤ EDerivativeQuality.Medium) = False := eq_false (by decide)

theorem qle_hh : (EDerivativeQuality.High ≤ EDerivativeQuality.High) = True := eq_true (by decide)

theorem le_antisymm_q (a b : EDerivativeQuality) (h1 : a ≤ b) (h2 : b ≤ a) : a = b := by
  revert h1 h2
  cases a <;> cases b <;> decide

theorem le_thumb (q : EDerivativeQuality) (h : q ≤ .Thumb) : q = .Thumb := by
  revert h
  cases q <;> decide

theorem getQuality_zero (c : EDerivativeQuality) : getQuality c 0 = .Thumb := by
  have hpos : (0 : ℚ) < 3 / 100 + (if c ≤ EDerivativeQuality.Thumb then hyst else 0) := by
    split_ifs <;> norm_num [hyst]
  rw [getQuality_char, if_pos hpos]

theorem getQuality_between (c f : EDerivativeQuality) (w : ℚ)
    (hf : f ≤ getQuality c w) :
    f ≤ getQuality f w ∧ getQuality f w ≤ getQuality c w := by
  cases c <;> cases f <;>
    simp only [getQuality_char, hyst, qle_tt, qle_tl, qle_tm, qle_th, qle_lt, qle_ll, qle_lm,
      qle_lh, qle_mt, qle_ml, qle_mm, qle_mh, qle_ht, qle_hl, qle_hm, qle_hh,
      if_true, if_false, add_zero] at hf ⊢ <;>
    split_ifs at hf ⊢ <;>
    simp_all only [qle_tt, qle_tl, qle_tm, qle_th, qle_lt, qle_ll, qle_lm, qle_lh, qle_mt,
      qle_ml, qle_mm, qle_mh, qle_ht, qle_hl, qle_hm, qle_hh, and_true, true_and, and_self,
      not_true, not_false_iff] <;>
    first | trivial | linarith

theorem downgrade_between (b t : ℤ) (p q f : EDerivativeQuality)
    (hf : downgrade b t p = f) (h1 : f ≤ q) (h2 : q ≤ p) :
    downgrade b t q = f := by
  cases p <;> cases q <;>
    simp only [downgrade, downgradeAux, EDerivativeQuality.pred, sizeMap_T, sizeMap_L,
      sizeMap_M, sizeMap_H, thumb_lt_thumb, thumb_lt_low, thumb_lt_medium, thumb_lt_high,
      and_true, and_false, if_false] at hf ⊢ <;>
    (try split_ifs at hf ⊢) <;>
    subst hf <;>
    simp_all only [qle_tt, qle_tl, qle_tm, qle_th, qle_lt, qle_ll, qle_lm, qle_lh, qle_mt,
      qle_ml, qle_mm, qle_mh, qle_ht, qle_hl, qle_hm, qle_hh] <;>
    first | rfl | omega

theorem qle_refl (a : EDerivativeQuality) : a ≤ a := Nat.le.refl

theorem forall₂_mem_left {R : PassItem → PassItem → Prop} :
    ∀ {l1 l2 : List PassItem}, List.Forall₂ R l1 l2 → ∀ a ∈ l1, ∃ b ∈ l2, R a b := by
  intro l1 l2 h
  induction h with
  | nil => intro a ha; exact absurd ha (List.not_mem_nil a)
  | cons hr _ ih =>
    intro a ha
    rcases List.mem_cons.mp ha with rfl | ha2
    · exact ⟨_, List.mem_cons_self _ _, hr⟩
    · obtain ⟨b, hb, hrb⟩ := ih a ha2
      exact ⟨b, List.mem_cons_of_mem _ hb, hrb⟩

theorem allocFold_weights (ms : List PassItem) : ∀ (t r : ℤ),
    (allocFold ms t r).1.map (fun m => m.weight) = ms.map (fun m => m.weight) := by
  induction ms with
  | nil => intro t r; rfl
  | cons m rest ih =>
    intro t r
    simp only [allocFold, List.map_cons]
    rw [ih]

theorem allocFold_length (ms : List PassItem) : ∀ (t r : ℤ),
    (allocFold ms t r).1.length = ms.length := by
  induction ms with
  | nil => intro t r; rfl
  | cons m rest ih =>
    intro t r
    simp only [allocFold, List.length_cons]
    rw [ih]

theorem applyStep_id (c f : EDerivativeQuality) (w : ℚ) (hf : f ≤ getQuality c w) :
    applyStep (fun q => some q) c f w = f := by
  by_cases hw : w = 0
  · subst hw
    rw [getQuality_zero] at hf
    have hft := le_thumb f hf
    subst hft
    simp only [applyStep]
    split_ifs with h1 h2
    · exact h1.symm
    · exact absurd h2.1 (by cases c <;> decide)
    · rfl
  · simp only [applyStep]
    split_ifs with h1 h2
    · exact h1.symm
    · exact absurd h2.2 hw
    · rfl

theorem applyList_eq (ms : List PassItem)
    (h : ∀ m ∈ ms, m.proposed ≤ getQuality m.current m.weight) :
    applyList ms = ms.map (fun m => LODModel.mk m.weight m.proposed) := by
  unfold applyList
  apply List.map_congr_left
  intro m hm
  rw [applyStep_id m.current m.proposed m.weight (h m hm)]

theorem classify_applyList (ms : List PassItem)
    (h : ∀ m ∈ ms, m.proposed ≤ getQuality m.current m.weight) :
    classifyList (applyList ms) = ms.map reclass := by
  rw [applyList_eq ms h]
  unfold classifyList reclass
  rw [List.map_map]
  rfl

theorem allocFold_reclass (ms : List PassItem) : ∀ (t r : ℤ),
    (∀ m ∈ ms, m.proposed = getQuality m.current m.weight) →
    (allocFold ((allocFold ms t r).1.map reclass) t r).1 =
      (allocFold ms t r).1.map (fun m => PassItem.mk m.weight m.proposed m.proposed) := by
  induction ms with
  | nil => intro t r _; rfl
  | cons m rest ih =>
    intro t r h
    have hm : m.proposed = getQuality m.current m.weight := h m (List.mem_cons_self _ _)
    have hrest : ∀ m2 ∈ rest, m2.proposed = getQuality m2.current m2.weight :=
      fun m2 hm2 => h m2 (List.mem_cons_of_mem _ hm2)
    have hle : downgrade (texBudget - (r - 512 * 512)) t m.proposed ≤ m.proposed :=
      downgrade_le _ _ _
    have hbet := getQuality_between m.current
      (downgrade (texBudget - (r - 512 * 512)) t m.proposed) m.weight (hm ▸ hle)
    have hdg : downgrade (texBudget - (r - 512 * 512)) t
        (getQuality (downgrade (texBudget - (r - 512 * 512)) t m.proposed) m.weight) =
        downgrade (texBudget - (r - 512 * 512)) t m.proposed :=
      downgrade_between _ _ m.proposed _ _ rfl hbet.1 (hm.symm ▸ hbet.2)
    simp only [allocFold, List.map_cons, reclass]
    rw [hdg]
    rw [ih _ _ hrest]

theorem pairwise_transfer (l l2 : List PassItem)
    (hmap : l.map (fun m => m.weight) = l2.map (fun m => m.weight))
    (h : List.Pairwise wRel l) : List.Pairwise wRel l2 := by
  have hA0 : List.Pairwise (fun a b : PassItem => a.weight ≤ b.weight) l := h
  have hA : List.Pairwise (fun x y : ℚ => x ≤ y) (l.map fun m => m.weight) :=
    List.pairwise_map.mpr hA0
  rw [hmap] at hA
  have hC : List.Pairwise (fun a b : PassItem => a.weight ≤ b.weight) l2 :=
    List.pairwise_map.mp hA
  exact hC

theorem pass_pass (ms : List LODModel) : lodPass (lodPass ms) = lodPass ms := by
  have hSprop : ∀ m ∈ List.insertionSort wRel (classifyList ms),
      m.proposed = getQuality m.current m.weight := by
    intro m hm
    have hmL : m ∈ classifyList ms := (List.mem_insertionSort wRel).mp hm
    obtain ⟨lm, _, rfl⟩ := List.mem_map.mp hmL
    rfl
  have hforall := allocFold_forall₂ (List.insertionSort wRel (classifyList ms)) 0
    (reserveInit (List.insertionSort wRel (classifyList ms)).length)
  have hAprop : ∀ m ∈ (allocate (List.insertionSort wRel (classifyList ms))).1,
      m.proposed ≤ getQuality m.current m.weight := by
    intro a ha
    obtain ⟨b, hb, hr⟩ := forall₂_mem_left hforall a ha
    calc a.proposed ≤ b.proposed := hr.2.1
    _ = getQuality b.current b.weight := hSprop b hb
    _ = getQuality a.current a.weight := by rw [← hr.2.2.1, ← hr.2.2.2]
  have hpass1 : lodPass ms =
      (allocate (List.insertionSort wRel (classifyList ms))).1.map
        (fun m => LODModel.mk m.weight m.proposed) := by
    unfold lodPass
    exact applyList_eq _ hAprop
  have hweights : ((allocate (List.insertionSort wRel (classifyList ms))).1.map
      (fun m => m.weight)) =
      (List.insertionSort wRel (classifyList ms)).map (fun m => m.weight) :=
    allocFold_weights _ 0 _
  have hclass : classifyList (lodPass ms) =
      (allocate (List.insertionSort wRel (classifyList ms))).1.map reclass := by
    unfold lodPass
    exact classify_applyList _ hAprop
  have hsorted2 : List.Pairwise wRel (classifyList (lodPass ms)) := by
    rw [hclass]
    apply pairwise_transfer (List.insertionSort wRel (classifyList ms))
    · rw [List.map_map]
      exact hweights.symm
    · exact List.sorted_insertionSort wRel (classifyList ms)
  have hsort2 : List.insertionSort wRel (classifyList (lodPass ms)) = classifyList (lodPass ms) :=
    List.Sorted.insertionSort_eq hsorted2
  have halloc2 : (allocate (classifyList (lodPass ms))).1 =
      (allocate (List.insertionSort wRel (classifyList ms))).1.map
        (fun m => PassItem.mk m.weight m.proposed m.proposed) := by
    rw [hclass]
    simp only [allocate, List.length_map, allocFold_length]
    exact allocFold_reclass _ 0 _ hSprop
  have hAprop2 : ∀ m ∈ (allocate (classifyList (lodPass ms))).1,
      m.proposed ≤ getQuality m.current m.weight := by
    rw [halloc2]
    intro a ha
    obtain ⟨b, hb, rfl⟩ := List.mem_map.mp ha
    exact (getQuality_between b.current b.proposed b.weight (hAprop b hb)).1
  show applyList (allocate (List.insertionSort wRel (classifyList (lodPass ms)))).1 = lodPass ms
  rw [hsort2, applyList_eq _ hAprop2, halloc2, List.map_map, hpass1]
  rfl

/-- C8: idempotence of the full pass: with the camera and model
transforms unchanged (hence identical weights) and an exact-match
derivative collaborator, running the complete
classify-sort-allocate-apply pass a second time produces no tier change
for any model: `lodPass` is idempotent; in particular the classifier
satisfies `getQuality (getQuality c w) w = getQuality c w`, so the
second run's apply step is skipped by the same-quality guard for every
model. -/
theorem pass_idempotent :
    (∀ (c : EDerivativeQuality) (w : ℚ), getQuality (getQuality c w) w = getQuality c w) ∧
    ∀ ms : List LODModel, lodPass (lodPass ms) = lodPass ms := by
  constructor
  · intro c w
    obtain ⟨h1, h2⟩ := getQuality_between c (getQuality c w) w (qle_refl _)
    exact le_antisymm_q _ _ h2 h1
  · exact pass_pass

/-- C10 witness: the rank ranges applied at rank 3 on a concrete list. -/
theorem tock_rank_assignment_witness :
    tockAssign (fun q => some q) [⟨1, .Thumb⟩, ⟨2, .Thumb⟩, ⟨3, .Thumb⟩] =
      (sortDesc [⟨1, .Thumb⟩, ⟨2, .Thumb⟩, ⟨3, .Thumb⟩]).enum.map
        (fun p => ⟨p.2.weight, tockQuality p.1⟩) ∧
    tockQuality 3 = .Medium :=
  ⟨(tock_rank_assignment [⟨1, .Thumb⟩, ⟨2, .Thumb⟩, ⟨3, .Thumb⟩]).1,
    ((tock_rank_assignment [⟨1, .Thumb⟩, ⟨2, .Thumb⟩, ⟨3, .Thumb⟩]).2 3).2.1
      (by norm_num) (by norm_num)⟩
